import Mathlib

/-!
Shallow embedding of the nano_pk MQTT bridge (`src/app.py`) and proofs about it.

Python values that flow through the bridge (ints, floats, strings) are
modelled by `PyVal`; Python floats are modelled as exact rationals, which is
faithful for the comparison/lookup logic verified here (no rounding is
involved in any verified property).  Fallible Python calls (`int(...)`,
`float(...)`, `mqtt.publish`, telnet reads) are modelled with `Option` /
explicit outcome oracles.
-/

set_option maxRecDepth 4000

namespace NanoPk

/-- A Python runtime value as used by the bridge: an `int`, a `float`
(modelled as an exact rational), or a `str`. -/
inductive PyVal where
  | int (n : ℤ)
  | float (q : ℚ)
  | str (s : String)
deriving DecidableEq

/-- `isinstance(v, float)`. -/
def PyVal.isFloat : PyVal → Bool
  | .float _ => true
  | _ => false

/-- Python `==` between the values the bridge handles: numeric equality
between numbers (an `int` and a `float` compare by value), string equality
between strings, `False` across numeric/string kinds. -/
def pyEq : PyVal → PyVal → Bool
  | .int n, .int m => decide (n = m)
  | .int n, .float q => decide ((n : ℚ) = q)
  | .float q, .int n => decide (q = (n : ℚ))
  | .float a, .float b => decide (a = b)
  | .str s, .str t => decide (s = t)
  | _, _ => false

/-- Python `float(v)` as used inside `almost_equal` (src/app.py:62).
Numbers convert to their exact value.  For strings the conversion is
modelled as raising (`none`): the only strings this program ever passes to
`almost_equal` are the status labels of `ZK_STATUS_MAP`, and `float(...)`
raises `ValueError` on every one of them. -/
def pyToFloat : PyVal → Option ℚ
  | .int n => some (n : ℚ)
  | .float q => some q
  | .str _ => none

/-- `almost_equal` (src/app.py:59-65): if either argument is a `float`,
compare `abs(float(a) - float(b)) < FLOAT_EPS`, returning `False` if a
conversion raises; otherwise plain `a == b`. -/
def almost_equal (eps : ℚ) (a b : PyVal) : Bool :=
  if a.isFloat || b.isFloat then
    match pyToFloat a, pyToFloat b with
    | some x, some y => decide (|x - y| < eps)
    | _, _ => false
  else
    pyEq a b

/-- `ZK_STATUS_MAP` (src/app.py:33-38) as an association list. -/
def ZK_STATUS_MAP : List (ℤ × String) :=
  [(0, "Unbekannt"), (1, "Aus"), (2, "Startvorbereitung"), (3, "Kessel Start"),
   (4, "Zündüberwachung"), (5, "Zündung"), (6, "Übergang LB"), (7, "Leistungsbrand"),
   (8, "Gluterhaltung"), (9, "Warten auf EA"), (10, "Entaschung"), (11, "-"),
   (12, "Putzen")]

/-- `ZK_STATUS_MAP.get(val, ZK_STATUS_MAP[0])` (src/app.py:217): Python dict
lookup is by `==` (so a float key equal to an integer key hits that entry),
with default `ZK_STATUS_MAP[0] = "Unbekannt"`. -/
def zkStatusGet (v : PyVal) : String :=
  match ZK_STATUS_MAP.find? (fun p => pyEq v (.int p.1)) with
  | some p => p.2
  | none => "Unbekannt"

/-- The status translation as claim C3 words it: each code `0..12` has its
fixed label, every other integer gets the code-0 label. -/
def statusLabelOfCode (n : ℤ) : String :=
  if n = 0 then "Unbekannt"
  else if n = 1 then "Aus"
  else if n = 2 then "Startvorbereitung"
  else if n = 3 then "Kessel Start"
  else if n = 4 then "Zündüberwachung"
  else if n = 5 then "Zündung"
  else if n = 6 then "Übergang LB"
  else if n = 7 then "Leistungsbrand"
  else if n = 8 then "Gluterhaltung"
  else if n = 9 then "Warten auf EA"
  else if n = 10 then "Entaschung"
  else if n = 11 then "-"
  else if n = 12 then "Putzen"
  else "Unbekannt"

/-! ### The line decoder `parse_pm_line` (src/app.py:67-79) -/

/-- The whitespace characters recognised by Python's `str.split()` /
`str.strip()` for ASCII input. -/
def pyIsSpace (c : Char) : Bool :=
  c = ' ' || c = '\t' || c = '\n' || c = '\r' || c = '\x0b' || c = '\x0c'

/-- `line.strip()`. -/
def pyStrip (s : String) : String :=
  String.mk (((s.toList.dropWhile pyIsSpace).reverse.dropWhile pyIsSpace).reverse)

/-- Worker for `pySplit`: `acc` holds the current token's characters in
reverse. -/
def pySplitAux : List Char → List Char → List String
  | acc, [] => if acc.isEmpty then [] else [String.mk acc.reverse]
  | acc, c :: rest =>
    if pyIsSpace c then
      if acc.isEmpty then pySplitAux [] rest
      else String.mk acc.reverse :: pySplitAux [] rest
    else pySplitAux (c :: acc) rest

/-- Python `s.split()` with no arguments: split on runs of whitespace,
producing no empty tokens. -/
def pySplit (s : String) : List String := pySplitAux [] s.toList

/-- `a.startswith(b)` on the character sequence. -/
def listBeginsWith : List Char → List Char → Bool
  | _, [] => true
  | [], _ :: _ => false
  | c :: cs, d :: ds => c = d && listBeginsWith cs ds

/-- `line.startswith("pm")`-style check. -/
def strBeginsWith (s pre : String) : Bool := listBeginsWith s.toList pre.toList

/-- Validity of a digit run after its first character, per Python numeric
parsing: digits with single underscores allowed between digits only. -/
def digitsUOkAux : List Char → Bool
  | [] => true
  | ['_'] => false
  | '_' :: c :: rest => c.isDigit && digitsUOkAux (c :: rest)
  | c :: rest => c.isDigit && digitsUOkAux rest

/-- A nonempty ASCII digit group, with Python's underscore separators
(`"1_000"` is valid, `"_1"`, `"1_"`, `"1__2"` are not). -/
def digitsUOk : List Char → Bool
  | [] => false
  | c :: rest => c.isDigit && digitsUOkAux rest

/-- Numeric value of a digit group, ignoring underscore separators. -/
def digitsVal (cs : List Char) : ℕ :=
  cs.foldl (fun acc c => if c = '_' then acc else acc * 10 + (c.toNat - 48)) 0

/-- Python `int(v)` on a whitespace-free token: optional sign followed by an
ASCII digit group.  (Python additionally accepts non-ASCII decimal digits;
no telemetry token exercises that and it is not modelled.) -/
def parsePyInt (s : String) : Option ℤ :=
  match s.toList with
  | '+' :: rest => if digitsUOk rest then some (digitsVal rest : ℤ) else none
  | '-' :: rest => if digitsUOk rest then some (-(digitsVal rest : ℤ)) else none
  | cs => if digitsUOk cs then some (digitsVal cs : ℤ) else none

/-- Split a character list at the first character satisfying `p`; the second
component is `none` when no such character occurs. -/
def splitAtPred (p : Char → Bool) : List Char → List Char × Option (List Char)
  | [] => ([], none)
  | c :: rest =>
    if p c then ([], some rest)
    else
      let r := splitAtPred p rest
      (c :: r.1, r.2)

/-- Count of actual digits (underscores excluded) in a group. -/
def digitCount (cs : List Char) : ℕ := (cs.filter (fun c => !(c = '_'))).length

/-- Value of `ip.fp` as an exact rational. -/
def mantissaVal (ip fp : List Char) : ℚ :=
  (digitsVal ip : ℚ) + (digitsVal fp : ℚ) / (10 : ℚ) ^ digitCount fp

/-- Apply an optional `e`/`E` exponent part to a mantissa value. -/
def applyExp (q : ℚ) : Option (List Char) → Option ℚ
  | none => some q
  | some ec =>
    match ec with
    | '+' :: rest => if digitsUOk rest then some (q * (10 : ℚ) ^ (digitsVal rest : ℤ)) else none
    | '-' :: rest => if digitsUOk rest then some (q * (10 : ℚ) ^ (-(digitsVal rest : ℤ))) else none
    | cs => if digitsUOk cs then some (q * (10 : ℚ) ^ (digitsVal cs : ℤ)) else none

/-- Unsigned part of Python's `float(v)` grammar: `digits [. digits] [e|E
[sign] digits]` with at least one mantissa digit. -/
def floatBody (cs : List Char) : Option ℚ :=
  let m := splitAtPred (fun c => c = 'e' || c = 'E') cs
  let mp := splitAtPred (fun c => c = '.') m.1
  match mp.2 with
  | none => if digitsUOk mp.1 then applyExp (digitsVal mp.1 : ℚ) m.2 else none
  | some fp =>
    if fp.any (fun c => c = '.') then none
    else if (mp.1.isEmpty || digitsUOk mp.1) && (fp.isEmpty || digitsUOk fp)
            && !(mp.1.isEmpty && fp.isEmpty) then
      applyExp (mantissaVal mp.1 fp) m.2
    else none

/-- Python `float(v)` on a whitespace-free token (finite decimal notation;
`"inf"`/`"nan"` contain no `'.'` so `parse_pm_line` never routes them
here). -/
def parsePyFloat (s : String) : Option ℚ :=
  match s.toList with
  | '+' :: rest => floatBody rest
  | '-' :: rest => (floatBody rest).map Neg.neg
  | cs => floatBody cs

/-- One token of `parse_pm_line` (src/app.py:74-78):
`float(v) if "." in v else int(v)`, with a `ValueError` yielding `None`. -/
def parseToken (v : String) : Option PyVal :=
  if v.toList.any (fun c => c = '.') then (parsePyFloat v).map PyVal.float
  else (parsePyInt v).map PyVal.int

/-- `parse_pm_line` (src/app.py:67-79): reject an empty line or one not
starting with `"pm"`; strip and split the line; reject fewer than two
tokens; otherwise parse every token after the first one. -/
def parse_pm_line (line : String) : Option (List (Option PyVal)) :=
  if line = "" || !(strBeginsWith line "pm") then none
  else if (pySplit (pyStrip line)).length < 2 then none
  else some (((pySplit (pyStrip line)).drop 1).map parseToken)

/-! ### Configuration and the external channel map -/

/-- The environment-derived configuration the loop reads
(src/app.py:16-30): topic base, quality of service, float tolerance,
retain flag. -/
structure Config where
  base : String
  qos : ℕ
  eps : ℚ
  retain : Bool

/-- `MQTT_STATUS = f"{MQTT_BASE}/status"` (src/app.py:23). -/
def mqttStatus (cfg : Config) : String := cfg.base ++ "/status"

/-- One entry of the external `channel_map` (imported at src/app.py:13 from
a module outside this repository's core): a dict with key `"alias"` and
optional keys `"mqtt_name"`, `"label"`, `"unit"`. -/
structure Entry where
  aliasName : String
  mqtt_name : Option String := none
  label : Option String := none
  unit : Option String := none
deriving DecidableEq

/-- `entry.get("mqtt_name", entry["alias"])` (src/app.py:119, 213). -/
def Entry.mqttName (e : Entry) : String := e.mqtt_name.getD e.aliasName

/-- `entry.get("label", entry["alias"])` (src/app.py:120). -/
def Entry.labelText (e : Entry) : String := e.label.getD e.aliasName

/-- `entry.get("unit", "")` (src/app.py:121). -/
def Entry.unitText (e : Entry) : String := e.unit.getD ""

/-- The channel map as an ordered association list (Python dicts preserve
insertion order). -/
abbrev ChannelMap := List (ℕ × Entry)

/-- `channel_map[idx]` / the `idx in channel_map` test. -/
def cmGet (cm : ChannelMap) (idx : ℕ) : Option Entry :=
  (cm.find? (fun p => p.1 = idx)).map Prod.snd

/-- Python `needle in hay` on strings (substring containment). -/
def strContains (hay needle : String) : Bool :=
  let h := hay.toList
  let n := needle.toList
  (List.range (h.length + 1)).any (fun i => n = (h.drop i).take n.length)

/-- `get_device_class` (src/app.py:48-57). -/
def get_device_class (name unit : String) : Option String :=
  if unit = "°C" then some "temperature"
  else if unit = "%" then
    if strContains name "Feuchte" || strContains name "Luftfeuchte" then some "humidity"
    else none
  else if unit = "bar" then some "pressure"
  else if strContains name "Leistung" then some "power"
  else none

/-! ### Discovery (src/app.py:103-158) -/

/-- The claim-relevant fields of one discovery descriptor's JSON payload.
The `device` and `availability` blocks are the same fixed constants in
every descriptor (src/app.py:104-115) and carry no per-channel data, so
they are not modelled as fields. -/
structure DiscoveryPayload where
  name : String
  state_topic : String
  unique_id : String
  unit_of_measurement : Option String
  state_class : Option String
  device_class : Option String
  payload_on : Option String
  payload_off : Option String
deriving DecidableEq

/-- `send_discovery` (src/app.py:103-158): one retained config message per
channel entry, in map order, then one retained config message for the
connectivity binary sensor.  Result entries are
`(topic, payload, retain)`. -/
def send_discovery (cfg : Config) (cm : ChannelMap) :
    List (String × DiscoveryPayload × Bool) :=
  (cm.map (fun p =>
    let mqtt_name := p.2.mqttName
    let label := p.2.labelText
    let unit := p.2.unitText
    ("homeassistant/sensor/nano_pk_" ++ mqtt_name ++ "/config",
     { name := label
       state_topic := cfg.base ++ "/" ++ mqtt_name
       unique_id := "nano_pk_" ++ mqtt_name
       unit_of_measurement := if p.1 ≠ 0 then some unit else none
       state_class := if p.1 ≠ 0 then some "measurement" else none
       device_class := if p.1 ≠ 0 then get_device_class label unit else none
       payload_on := none
       payload_off := none },
     true)))
  ++ [("homeassistant/binary_sensor/nano_pk_status/config",
      { name := "NanoPK Status"
        state_topic := mqttStatus cfg
        unique_id := "nano_pk_status"
        unit_of_measurement := none
        state_class := none
        device_class := some "connectivity"
        payload_on := some "online"
        payload_off := some "offline" },
      true)]

/-! ### Telnet connect with backoff (src/app.py:161-172) -/

/-- The backoff delay sequence of `connect_telnet_with_backoff`:
`delay = 1` initially, `delay = min(delay * 2, 30)` after each failed
attempt.  `delayIter d i` is the delay slept after the `(i+1)`-th
consecutive failure when the first sleep was `d`. -/
def delayIter (d : ℕ) : ℕ → ℕ
  | 0 => d
  | i + 1 => min (delayIter d i * 2) 30

/-- The `while True` connect loop (src/app.py:163-172), with the outcome of
the `k`-th connection attempt given by `ok k` and an explicit fuel bound
(the Python loop has none).  Returns the index of the succeeding attempt
together with the list of delays slept before it, or `none` if the fuel
runs out before an attempt succeeds. -/
def connectLoop (ok : ℕ → Bool) : ℕ → ℕ → ℕ → Option (ℕ × List ℕ)
  | _, _, 0 => none
  | delay, n, fuel + 1 =>
    if ok n then some (n, [])
    else
      match connectLoop ok (min (delay * 2) 30) (n + 1) fuel with
      | some r => some (r.1, delay :: r.2)
      | none => none

/-- `connect_telnet_with_backoff` (src/app.py:161-172), fuel-bounded. -/
def connect_telnet_with_backoff (ok : ℕ → Bool) (fuel : ℕ) : Option (ℕ × List ℕ) :=
  connectLoop ok 1 0 fuel

/-! ### The Bridge read loop (src/app.py:194-249) -/

/-- `self.last_values` (src/app.py:179): the per-index last-published-value
cache. -/
abbrev Cache := ℕ → Option PyVal

/-- The empty cache a fresh `Bridge` starts with. -/
def emptyCache : Cache := fun _ => none

/-- `self.last_values[idx] = payload` (src/app.py:227). -/
def cacheSet (c : Cache) (i : ℕ) (v : PyVal) : Cache :=
  fun j => if j = i then some v else c j

/-- The per-index translation (src/app.py:216-219): index 0 goes through
`ZK_STATUS_MAP`, every other index publishes the decoded value as is. -/
def translatePayload (idx : ℕ) (val : PyVal) : PyVal :=
  if idx = 0 then .str (zkStatusGet val) else val

/-- The change filter decision (src/app.py:221-223): publish unless a value
is cached for `idx` and `almost_equal` holds. -/
def shouldPublish (eps : ℚ) (c : Cache) (idx : ℕ) (payload : PyVal) : Bool :=
  match c idx with
  | none => true
  | some last => !(almost_equal eps last payload)

/-- Externally visible actions of one loop iteration: an MQTT publish
attempt `(topic, payload, qos, retain)`, closing the telnet handle,
`time.sleep`, and a (backoff) telnet reconnect. -/
inductive Ev where
  | pub (topic : String) (payload : PyVal) (qos : ℕ) (retain : Bool)
  | tnClose
  | sleepEv (n : ℕ)
  | tnConnect
deriving DecidableEq

/-- Result of running the per-value `for` loop of one iteration
(src/app.py:208-227): emitted events, the successful per-channel publishes
(with their channel index), the cache afterwards, the unconsumed publish
outcomes, whether a publish raised, and at which index/payload it did. -/
structure RunOut where
  events : List Ev
  pubs : List (ℕ × PyVal)
  cache : Cache
  oracle : List Bool
  raised : Bool
  failed : Option (ℕ × PyVal)

/-- `for idx, val in enumerate(values)` (src/app.py:208-227), starting at
index `idx`.  The head of `o` decides whether the next `mqtt.publish` call
returns normally (`true`) or raises (`false`, aborting the loop); an
exhausted list means every remaining publish succeeds.  The cache is
written only after the publish call returned (src/app.py:226-227). -/
def processValues (cfg : Config) (cm : ChannelMap) :
    List (Option PyVal) → ℕ → Cache → List Bool → RunOut
  | [], _, c, o => ⟨[], [], c, o, false, none⟩
  | v :: rest, idx, c, o =>
    match cmGet cm idx, v with
    | some e, some val =>
      let payload := translatePayload idx val
      if shouldPublish cfg.eps c idx payload then
        let ev : Ev := .pub (cfg.base ++ "/" ++ e.mqttName) payload cfg.qos cfg.retain
        if o.headD true then
          let r := processValues cfg cm rest (idx + 1) (cacheSet c idx payload) o.tail
          ⟨ev :: r.events, (idx, payload) :: r.pubs, r.cache, r.oracle, r.raised, r.failed⟩
        else
          ⟨[ev], [], c, o.tail, true, some (idx, payload)⟩
      else
        processValues cfg cm rest (idx + 1) c o
    | _, _ => processValues cfg cm rest (idx + 1) c o

/-- The `except` handler of the read loop (src/app.py:229-249): close the
stale telnet handle (errors swallowed), best-effort publish `"offline"` to
the status topic, `time.sleep(2)`, reconnect telnet with backoff,
best-effort publish `"online"`.  The two status publish attempts each
consume one publish outcome; their failures are swallowed. -/
def handleLinkError (cfg : Config) (o : List Bool) : List Ev × List Bool :=
  ([.tnClose,
    .pub (mqttStatus cfg) (.str "offline") cfg.qos true,
    .sleepEv 2,
    .tnConnect,
    .pub (mqttStatus cfg) (.str "online") cfg.qos true],
   o.tail.tail)

/-- One read result of `self.tn.read_until(b"\n", timeout=5)`
(src/app.py:196): a line (possibly empty on timeout), or a raised read
error. -/
inductive ReadResult where
  | ok (raw : String)
  | err

/-- Characterization of the successful per-channel publishes of one line
when every publish succeeds: position `k` of the line (channel index
`idx + k`) contributes exactly when the value is present, the channel is
mapped, and the change filter against the pre-line cache `c` fires.  (The
cache updates made while walking the line only touch indices already
passed, so the decision at each index depends only on `c`; this is proved,
not assumed.) -/
def pubsSpec (cfg : Config) (cm : ChannelMap) :
    List (Option PyVal) → ℕ → Cache → List (ℕ × PyVal)
  | [], _, _ => []
  | v :: rest, idx, c =>
    match cmGet cm idx, v with
    | some _, some val =>
      if shouldPublish cfg.eps c idx (translatePayload idx val) then
        (idx, translatePayload idx val) :: pubsSpec cfg cm rest (idx + 1) c
      else pubsSpec cfg cm rest (idx + 1) c
    | _, _ => pubsSpec cfg cm rest (idx + 1) c

/-- One iteration of the `while self.running` loop (src/app.py:194-249):
returns the emitted events, the cache afterwards, and the unconsumed
publish outcomes.  The iteration always returns to the top of the loop —
no exception escapes it. -/
def bridgeStep (cfg : Config) (cm : ChannelMap) (r : ReadResult) (c : Cache)
    (o : List Bool) : List Ev × Cache × List Bool :=
  match r with
  | .err =>
    let h := handleLinkError cfg o
    (h.1, c, h.2)
  | .ok raw =>
    if raw = "" then ([], c, o)
    else
      let line := pyStrip raw
      if line = "" then ([], c, o)
      else
        match parse_pm_line line with
        | none => ([], c, o)
        | some values =>
          if values.isEmpty then ([], c, o)
          else
            let r := processValues cfg cm values 0 c o
            if r.raised then
              let h := handleLinkError cfg r.oracle
              (r.events ++ h.1, r.cache, h.2)
            else
              (r.events, r.cache, r.oracle)

/-- A concrete configuration used by the closed example theorems:
base topic `"nano_pk"`, QoS 1, tolerance `0.001`, retain on (the
documented defaults, src/app.py:22-30). -/
def cfgEx : Config := ⟨"nano_pk", 1, 1 / 1000, true⟩

/-- A concrete one-entry channel map (channel 1 named `"kessel"`) used by
the closed example theorems. -/
def cmEx : ChannelMap := [(1, { aliasName := "kessel" })]

/-! ## Theorems -/

/-- The rejection conditions of `parse_pm_line`. -/
theorem parse_none (line : String)
    (h : line = "" ∨ strBeginsWith line "pm" = false ∨ (pySplit (pyStrip line)).length < 2) :
    parse_pm_line line = none := by
  unfold parse_pm_line
  rcases h with h | h | h
  · simp [h]
  · simp [h]
  · split_ifs with h1 <;> rfl

/-- The acceptance shape of `parse_pm_line`. -/
theorem parse_some (line : String) (h1 : ¬ line = "") (h2 : strBeginsWith line "pm" = true)
    (h3 : 2 ≤ (pySplit (pyStrip line)).length) :
    parse_pm_line line = some (((pySplit (pyStrip line)).drop 1).map parseToken) := by
  unfold parse_pm_line
  rw [if_neg, if_neg]
  · omega
  · simp [h1, h2]

/-- Decoded values are positionally the parses of the tokens after the
first token. -/
theorem parse_shape (line : String) (vs : List (Option PyVal))
    (h : parse_pm_line line = some vs) :
    vs.length + 1 = (pySplit (pyStrip line)).length
    ∧ ∀ (k : ℕ) (t : String), (pySplit (pyStrip line))[k + 1]? = some t →
        vs[k]? = some (parseToken t) := by
  unfold parse_pm_line at h
  split_ifs at h with hA hB
  injection h with h
  subst h
  constructor
  · simp only [List.length_map, List.length_drop]
    omega
  · intro k t ht
    rw [List.getElem?_map, List.getElem?_drop, Nat.add_comm 1 k, ht]
    rfl

/-- Status translation on Python ints agrees with the case-by-case label
function. -/
theorem zkStatusGet_int (n : ℤ) : zkStatusGet (.int n) = statusLabelOfCode n := by
  by_cases h0 : n = 0
  · subst h0; rfl
  by_cases h1 : n = 1
  · subst h1; rfl
  by_cases h2 : n = 2
  · subst h2; rfl
  by_cases h3 : n = 3
  · subst h3; rfl
  by_cases h4 : n = 4
  · subst h4; rfl
  by_cases h5 : n = 5
  · subst h5; rfl
  by_cases h6 : n = 6
  · subst h6; rfl
  by_cases h7 : n = 7
  · subst h7; rfl
  by_cases h8 : n = 8
  · subst h8; rfl
  by_cases h9 : n = 9
  · subst h9; rfl
  by_cases h10 : n = 10
  · subst h10; rfl
  by_cases h11 : n = 11
  · subst h11; rfl
  by_cases h12 : n = 12
  · subst h12; rfl
  simp [zkStatusGet, ZK_STATUS_MAP, statusLabelOfCode, List.find?, pyEq,
    h0, h1, h2, h3, h4, h5, h6, h7, h8, h9, h10, h11, h12]

/-- A float that is exactly an integer is looked up like that integer. -/
theorem zkStatusGet_intCast (m : ℤ) : zkStatusGet (.float (m : ℚ)) = statusLabelOfCode m := by
  have key : ∀ k : ℤ, pyEq (.float (m : ℚ)) (.int k) = pyEq (.int m) (.int k) := by
    intro k
    simp [pyEq, Int.cast_inj]
  rw [← zkStatusGet_int]
  unfold zkStatusGet ZK_STATUS_MAP
  simp only [List.find?, key]

/-- Status translation on Python floats: integral floats hit the integer
code, all others fall back to the code-0 label. -/
theorem zkStatusGet_float (q : ℚ) :
    zkStatusGet (.float q) = if q.den = 1 then statusLabelOfCode q.num else "Unbekannt" := by
  by_cases hd : q.den = 1
  · obtain ⟨m, rfl⟩ : ∃ m : ℤ, (m : ℚ) = q := ⟨q.num, (Rat.den_eq_one_iff q).mp hd⟩
    simp only [Rat.den_intCast, Rat.num_intCast, if_pos rfl]
    exact zkStatusGet_intCast m
  · rw [if_neg hd]
    have hk : ∀ k : ℤ, (decide (q = (k : ℚ)) : Bool) = false := by
      intro k
      simp only [decide_eq_false_iff_not]
      intro h
      exact hd (by rw [h, Rat.den_intCast])
    simp only [zkStatusGet, ZK_STATUS_MAP, List.find?, pyEq, hk]


/-- C2: `parse_pm_line` returns `None` exactly for an empty line, a line
not starting with the telemetry marker, or a line with fewer than two
whitespace-separated tokens; otherwise it returns one optional value per
token after the first, each token parsed as a float when it contains `'.'`
and as an integer otherwise, with a failed parse yielding `None` at that
position only; `"pm 1 22.5 990"` decodes to `[1, 22.5, 990]` and `""`,
`"xx 1 2"`, `"pm"` are rejected. -/
theorem spec_C2_value_decoder :
    (∀ line : String,
        (line = "" ∨ strBeginsWith line "pm" = false ∨ (pySplit (pyStrip line)).length < 2) →
        parse_pm_line line = none)
    ∧ (∀ line : String, ¬ line = "" → strBeginsWith line "pm" = true →
        2 ≤ (pySplit (pyStrip line)).length →
        parse_pm_line line = some (((pySplit (pyStrip line)).drop 1).map parseToken))
    ∧ (∀ (line : String) (vs : List (Option PyVal)), parse_pm_line line = some vs →
        vs.length + 1 = (pySplit (pyStrip line)).length
        ∧ ∀ (k : ℕ) (t : String), (pySplit (pyStrip line))[k + 1]? = some t →
            vs[k]? = some (parseToken t))
    ∧ parse_pm_line "pm 1 22.5 990" =
        some [some (.int 1), some (.float (45 / 2)), some (.int 990)]
    ∧ parse_pm_line "pm 1 abc 2" = some [some (.int 1), none, some (.int 2)]
    ∧ parse_pm_line "" = none
    ∧ parse_pm_line "xx 1 2" = none
    ∧ parse_pm_line "pm" = none := by
  refine ⟨parse_none, parse_some, parse_shape, ?_, by decide, by decide, by decide, by decide⟩
  simp +decide [parse_pm_line, pySplit, pyStrip, pySplitAux, pyIsSpace, strBeginsWith,
    listBeginsWith, parseToken, parsePyFloat, parsePyInt, floatBody, splitAtPred,
    digitsUOk, digitsUOkAux, digitsVal, digitCount, mantissaVal, applyExp, String.toList,
    List.foldl]
  norm_num

/-- C9: a line is accepted whenever its text starts with the two characters
`"pm"`, even if its first token is longer than the marker; the whole first
token is discarded, so the values align with the tokens after the first
token (`"pmX 1 2"` yields two values `[1, 2]`). -/
theorem spec_C9_marker_is_text_prefix :
    parse_pm_line "pmX 1 2" = some [some (.int 1), some (.int 2)]
    ∧ parse_pm_line "pm999 7" = some [some (.int 7)]
    ∧ (∀ line : String, ¬ line = "" → strBeginsWith line "pm" = true →
        parse_pm_line line =
          if (pySplit (pyStrip line)).length < 2 then none
          else some (((pySplit (pyStrip line)).drop 1).map parseToken)) := by
  refine ⟨by decide, by decide, ?_⟩
  intro line h1 h2
  split_ifs with h
  · exact parse_none line (Or.inr (Or.inr h))
  · exact parse_some line h1 h2 (by omega)

/-- C3: the status channel translation maps each integer code `0..12` to
its fixed label and every other integer (including negatives) to the
code-0 label `"Unbekannt"`; being a total function, it never raises. -/
theorem spec_C3_status_codes :
    (∀ n : ℤ, zkStatusGet (.int n) = statusLabelOfCode n)
    ∧ zkStatusGet (.int 3) = "Kessel Start"
    ∧ zkStatusGet (.int 99) = "Unbekannt"
    ∧ zkStatusGet (.int (-1)) = "Unbekannt" := by
  exact ⟨zkStatusGet_int, by decide, by decide, by decide⟩

/-- C10: a float status value is looked up by numeric equality and never
raises: a float equal to an integer code yields that code's label
(`3.0` yields `"Kessel Start"`), any non-integral or out-of-range float
yields `"Unbekannt"`. -/
theorem spec_C10_float_status_lookup :
    (∀ q : ℚ, zkStatusGet (.float q) =
        if q.den = 1 then statusLabelOfCode q.num else "Unbekannt")
    ∧ parseToken "3.0" = some (.float 3)
    ∧ zkStatusGet (.float 3) = "Kessel Start"
    ∧ zkStatusGet (.float (7 / 2)) = "Unbekannt"
    ∧ zkStatusGet (.float 99) = "Unbekannt" := by
  refine ⟨zkStatusGet_float, ?_, by decide, ?_, ?_⟩
  · simp +decide [parseToken, parsePyFloat, floatBody, splitAtPred, digitsUOk, digitsUOkAux,
      digitsVal, digitCount, mantissaVal, applyExp, String.toList, List.foldl]
  · rw [zkStatusGet_float]
    norm_num
  · rw [zkStatusGet_float]
    norm_num [statusLabelOfCode]


/-- Closed form of the backoff delay sequence when starting at 1. -/
theorem delayIter_one : ∀ i : ℕ, delayIter 1 i = min (2 ^ i) 30
  | 0 => by simp [delayIter]
  | i + 1 => by
    have ih := delayIter_one i
    simp only [delayIter, ih, pow_succ]
    omega

/-- Shifting the start delay by one failed attempt. -/
theorem delayIter_shift (d : ℕ) : ∀ i : ℕ, delayIter (min (d * 2) 30) i = delayIter d (i + 1)
  | 0 => rfl
  | i + 1 => by
    simp only [delayIter, delayIter_shift d i]

/-- If every attempt fails, the connect loop never returns. -/
theorem connectLoop_none (ok : ℕ → Bool) (h : ∀ j, ok j = false) :
    ∀ (fuel d n : ℕ), connectLoop ok d n fuel = none
  | 0, d, n => rfl
  | fuel + 1, d, n => by
    simp [connectLoop, h n, connectLoop_none ok h fuel]

/-- If the first `k` attempts (numbered from `n`) fail and attempt `n + k`
succeeds, the loop returns that attempt with the delay sequence slept. -/
theorem connectLoop_success (ok : ℕ → Bool) :
    ∀ (k fuel d n : ℕ), (∀ j, j < k → ok (n + j) = false) → ok (n + k) = true → k < fuel →
      connectLoop ok d n fuel = some (n + k, (List.range k).map (delayIter d))
  | 0, fuel + 1, d, n, _, hk, _ => by
    simp only [Nat.add_zero] at hk
    simp [connectLoop, hk]
  | k + 1, fuel + 1, d, n, hfail, hk, hfuel => by
    have h0 : ok n = false := by simpa using hfail 0 (Nat.succ_pos k)
    have ih := connectLoop_success ok k fuel (min (d * 2) 30) (n + 1)
      (fun j hj => by
        have := hfail (j + 1) (by omega)
        simpa [Nat.add_assoc, Nat.add_comm 1 j] using this)
      (by have := hk; simpa [Nat.add_assoc, Nat.add_comm 1 k] using this)
      (by omega)
    simp only [connectLoop, h0, Bool.false_eq_true, if_false, ih]
    refine congrArg some (Prod.ext ?_ ?_)
    · simp; omega
    · simp only [List.range_succ_eq_map, List.map_cons, List.map_map]
      refine congrArg₂ List.cons rfl ?_
      apply List.map_congr_left
      intro i _
      simp [Function.comp, delayIter_shift]

/-- C6: the telnet connect loop never returns without a successful attempt
(infinite retry), and the delay slept after the `n`-th consecutive failure
is `min(2^(n-1), 30)`: it starts at 1, doubles each failure, capped at
30. -/
theorem spec_C6_backoff (ok : ℕ → Bool) (fuel k : ℕ) :
    ((∀ j, ok j = false) → connect_telnet_with_backoff ok fuel = none)
    ∧ ((∀ j, j < k → ok j = false) → ok k = true → k < fuel →
        connect_telnet_with_backoff ok fuel =
          some (k, (List.range k).map (fun i => min (2 ^ i) 30))) := by
  constructor
  · intro h
    exact connectLoop_none ok h fuel 1 0
  · intro hfail hk hfuel
    have := connectLoop_success ok k fuel 1 0 (fun j hj => by simpa using hfail j hj)
      (by simpa using hk) hfuel
    rw [connect_telnet_with_backoff, this]
    simp [delayIter_one]

/-- Witness for C6: with attempts 0 and 1 failing and attempt 2 succeeding,
the loop returns attempt 2 after sleeping 1 then 2 time units. -/
theorem spec_C6_backoff_witness :
    connect_telnet_with_backoff (fun j => decide (j = 2)) 5 = some (2, [1, 2]) := by
  have h := (spec_C6_backoff (fun j => decide (j = 2)) 5 2).2 (by decide) (by decide) (by decide)
  simpa using h

/-- C7: a read failure in the Running state performs exactly, in order:
close the stale telnet handle, one best-effort `"offline"` status publish,
a fixed 2-unit pause (not the exponential backoff), the backoff reconnect,
one best-effort `"online"` status publish — leaving the cache untouched and
returning to the read loop. -/
theorem spec_C7_reconnect_sequence (cfg : Config) (cm : ChannelMap) (c : Cache) (o : List Bool) :
    bridgeStep cfg cm .err c o =
      ([.tnClose, .pub (mqttStatus cfg) (.str "offline") cfg.qos true, .sleepEv 2,
        .tnConnect, .pub (mqttStatus cfg) (.str "online") cfg.qos true], c, o.tail.tail)
    ∧ (bridgeStep cfg cm .err c o).1.countP
        (fun ev => decide (ev = Ev.pub (mqttStatus cfg) (.str "offline") cfg.qos true)) = 1
    ∧ (bridgeStep cfg cm .err c o).1.countP
        (fun ev => decide (ev = Ev.pub (mqttStatus cfg) (.str "online") cfg.qos true)) = 1 := by
  refine ⟨rfl, ?_, ?_⟩ <;>
    simp [bridgeStep, handleLinkError, List.countP_cons, List.countP_nil]

/-- C8: discovery publishes exactly one retained descriptor per channel
entry plus one connectivity descriptor; every non-status descriptor
carries the unit, the `"measurement"` state class and the inferred device
class exactly when one is inferred (temperature for `"°C"`, humidity for
`"%"` with a humidity-related label, pressure for `"bar"`, power for a
power-related label, otherwise omitted); the status descriptor carries
none of these. -/
theorem spec_C8_discovery (cfg : Config) (cm : ChannelMap) :
    (send_discovery cfg cm).length = cm.length + 1
    ∧ (∀ d ∈ send_discovery cfg cm, d.2.2 = true)
    ∧ (∀ (i idx : ℕ) (e : Entry), cm[i]? = some (idx, e) →
        ∃ p : DiscoveryPayload,
          (send_discovery cfg cm)[i]? =
            some ("homeassistant/sensor/nano_pk_" ++ e.mqttName ++ "/config", p, true)
          ∧ p.name = e.labelText
          ∧ p.state_topic = cfg.base ++ "/" ++ e.mqttName
          ∧ (idx ≠ 0 →
              p.unit_of_measurement = some e.unitText
              ∧ p.state_class = some "measurement"
              ∧ p.device_class = get_device_class e.labelText e.unitText)
          ∧ (idx = 0 →
              p.unit_of_measurement = none ∧ p.state_class = none ∧ p.device_class = none))
    ∧ (send_discovery cfg cm)[cm.length]? =
        some ("homeassistant/binary_sensor/nano_pk_status/config",
          { name := "NanoPK Status", state_topic := mqttStatus cfg,
            unique_id := "nano_pk_status", unit_of_measurement := none,
            state_class := none, device_class := some "connectivity",
            payload_on := some "online", payload_off := some "offline" }, true)
    ∧ (∀ name unit : String,
        (unit = "°C" → get_device_class name unit = some "temperature")
        ∧ (unit = "%" → get_device_class name unit =
            (if strContains name "Feuchte" || strContains name "Luftfeuchte" then
              some "humidity" else none))
        ∧ (unit = "bar" → get_device_class name unit = some "pressure")
        ∧ (unit ≠ "°C" → unit ≠ "%" → unit ≠ "bar" → get_device_class name unit =
            (if strContains name "Leistung" then some "power" else none))) := by
  refine ⟨?_, ?_, ?_, ?_, ?_⟩
  · simp [send_discovery]
  · intro d hd
    rcases List.mem_append.mp hd with h | h
    · obtain ⟨q, _, rfl⟩ := List.mem_map.mp h
      rfl
    · simp only [List.mem_singleton] at h
      subst h
      rfl
  · intro i idx e hi
    have hlen : i < cm.length := by
      by_contra hcon
      rw [List.getElem?_eq_none (by omega)] at hi
      exact Option.noConfusion hi
    refine Exists.intro
      { name := e.labelText
        state_topic := cfg.base ++ "/" ++ e.mqttName
        unique_id := "nano_pk_" ++ e.mqttName
        unit_of_measurement := if idx ≠ 0 then some e.unitText else none
        state_class := if idx ≠ 0 then some "measurement" else none
        device_class := if idx ≠ 0 then get_device_class e.labelText e.unitText else none
        payload_on := none
        payload_off := none } ?_
    refine ⟨?_, rfl, rfl, ?_, ?_⟩
    · rw [send_discovery, List.getElem?_append_left (by simpa using hlen),
        List.getElem?_map, hi]
      rfl
    · intro h0
      refine ⟨?_, ?_, ?_⟩ <;> simp [h0]
    · intro h0
      subst h0
      refine ⟨?_, ?_, ?_⟩ <;> rfl
  · rw [send_discovery, List.getElem?_append_right (by simp)]
    simp
  · intro name unit
    refine ⟨?_, ?_, ?_, ?_⟩
    · intro h
      simp [get_device_class, h]
    · intro h
      simp +decide [get_device_class, h]
    · intro h
      simp +decide [get_device_class, h]
    · intro h1 h2 h3
      simp [get_device_class, h1, h2, h3]

/-! Rewrite equations for `processValues`, one per control path of the
`for` body (src/app.py:208-227). -/

theorem processValues_nil (cfg : Config) (cm : ChannelMap) (idx : ℕ) (c : Cache)
    (o : List Bool) : processValues cfg cm [] idx c o = ⟨[], [], c, o, false, none⟩ := rfl

theorem processValues_cons_skip (cfg : Config) (cm : ChannelMap) {idx : ℕ} {c : Cache}
    {o : List Bool} {v : Option PyVal} (rest : List (Option PyVal))
    (h : cmGet cm idx = none ∨ v = none) :
    processValues cfg cm (v :: rest) idx c o = processValues cfg cm rest (idx + 1) c o := by
  rcases h with h | h
  · rcases v with _ | val <;> simp [processValues, h]
  · subst h
    rcases hm : cmGet cm idx with _ | e <;> simp [processValues, hm]

theorem processValues_cons_dup (cfg : Config) (cm : ChannelMap) {idx : ℕ} {c : Cache}
    {o : List Bool} {e : Entry} {val : PyVal} (rest : List (Option PyVal))
    (hm : cmGet cm idx = some e)
    (hsp : shouldPublish cfg.eps c idx (translatePayload idx val) = false) :
    processValues cfg cm (some val :: rest) idx c o =
      processValues cfg cm rest (idx + 1) c o := by
  simp [processValues, hm, hsp]

theorem processValues_cons_pub (cfg : Config) (cm : ChannelMap) {idx : ℕ} {c : Cache}
    {o : List Bool} {e : Entry} {val : PyVal} (rest : List (Option PyVal))
    (hm : cmGet cm idx = some e)
    (hsp : shouldPublish cfg.eps c idx (translatePayload idx val) = true)
    (ho : o.headD true = true) :
    processValues cfg cm (some val :: rest) idx c o =
      ⟨.pub (cfg.base ++ "/" ++ e.mqttName) (translatePayload idx val) cfg.qos cfg.retain ::
         (processValues cfg cm rest (idx + 1) (cacheSet c idx (translatePayload idx val))
           o.tail).events,
       (idx, translatePayload idx val) ::
         (processValues cfg cm rest (idx + 1) (cacheSet c idx (translatePayload idx val))
           o.tail).pubs,
       (processValues cfg cm rest (idx + 1) (cacheSet c idx (translatePayload idx val))
         o.tail).cache,
       (processValues cfg cm rest (idx + 1) (cacheSet c idx (translatePayload idx val))
         o.tail).oracle,
       (processValues cfg cm rest (idx + 1) (cacheSet c idx (translatePayload idx val))
         o.tail).raised,
       (processValues cfg cm rest (idx + 1) (cacheSet c idx (translatePayload idx val))
         o.tail).failed⟩ := by
  have ho' : o.head?.getD true = true := by simpa using ho
  simp [processValues, hm, hsp, ho']

theorem processValues_cons_fail (cfg : Config) (cm : ChannelMap) {idx : ℕ} {c : Cache}
    {o : List Bool} {e : Entry} {val : PyVal} (rest : List (Option PyVal))
    (hm : cmGet cm idx = some e)
    (hsp : shouldPublish cfg.eps c idx (translatePayload idx val) = true)
    (ho : o.headD true = false) :
    processValues cfg cm (some val :: rest) idx c o =
      ⟨[.pub (cfg.base ++ "/" ++ e.mqttName) (translatePayload idx val) cfg.qos cfg.retain],
       [], c, o.tail, true, some (idx, translatePayload idx val)⟩ := by
  have ho' : o.head?.getD true = false := by simpa using ho
  simp [processValues, hm, hsp, ho']

/-- Every successful publish of the `for` body carries an index at or past
the start index. -/
theorem processValues_pubs_ge (cfg : Config) (cm : ChannelMap) :
    ∀ (vs : List (Option PyVal)) (idx : ℕ) (c : Cache) (o : List Bool) (q : ℕ × PyVal),
      q ∈ (processValues cfg cm vs idx c o).pubs → idx ≤ q.1
  | [], idx, c, o, q => by
    simp [processValues_nil]
  | v :: rest, idx, c, o, q => by
    intro hq
    rcases v with _ | val
    · rw [processValues_cons_skip cfg cm rest (Or.inr rfl)] at hq
      have := processValues_pubs_ge cfg cm rest (idx + 1) c o q hq
      omega
    rcases hm : cmGet cm idx with _ | e
    · rw [processValues_cons_skip cfg cm rest (Or.inl hm)] at hq
      have := processValues_pubs_ge cfg cm rest (idx + 1) c o q hq
      omega
    rcases hsp : shouldPublish cfg.eps c idx (translatePayload idx val) with _ | _
    · rw [processValues_cons_dup cfg cm rest hm hsp] at hq
      have := processValues_pubs_ge cfg cm rest (idx + 1) c o q hq
      omega
    rcases ho : o.headD true with _ | _
    · rw [processValues_cons_fail cfg cm rest hm hsp ho] at hq
      simp at hq
    · rw [processValues_cons_pub cfg cm rest hm hsp ho] at hq
      rcases List.mem_cons.mp hq with h | h
      · subst h
        exact le_refl idx
      · have := processValues_pubs_ge cfg cm rest (idx + 1) _ _ q h
        omega

/-- A cache slot with no successful publish in the run keeps its pre-line
value. -/
theorem processValues_cache_stable (cfg : Config) (cm : ChannelMap) :
    ∀ (vs : List (Option PyVal)) (idx : ℕ) (c : Cache) (o : List Bool) (j : ℕ),
      (∀ p : PyVal, (j, p) ∉ (processValues cfg cm vs idx c o).pubs) →
      (processValues cfg cm vs idx c o).cache j = c j
  | [], idx, c, o, j => by
    intro _
    rfl
  | v :: rest, idx, c, o, j => by
    intro hj
    rcases v with _ | val
    · rw [processValues_cons_skip cfg cm rest (Or.inr rfl)] at hj ⊢
      exact processValues_cache_stable cfg cm rest (idx + 1) c o j hj
    rcases hm : cmGet cm idx with _ | e
    · rw [processValues_cons_skip cfg cm rest (Or.inl hm)] at hj ⊢
      exact processValues_cache_stable cfg cm rest (idx + 1) c o j hj
    rcases hsp : shouldPublish cfg.eps c idx (translatePayload idx val) with _ | _
    · rw [processValues_cons_dup cfg cm rest hm hsp] at hj ⊢
      exact processValues_cache_stable cfg cm rest (idx + 1) c o j hj
    rcases ho : o.headD true with _ | _
    · rw [processValues_cons_fail cfg cm rest hm hsp ho]
    · rw [processValues_cons_pub cfg cm rest hm hsp ho] at hj ⊢
      have hne : j ≠ idx := by
        intro h
        subst h
        exact hj (translatePayload j val) (List.mem_cons_self _ _)
      have htail : ∀ p : PyVal,
          (j, p) ∉ (processValues cfg cm rest (idx + 1)
            (cacheSet c idx (translatePayload idx val)) o.tail).pubs := by
        intro p hp
        exact hj p (List.mem_cons_of_mem _ hp)
      have := processValues_cache_stable cfg cm rest (idx + 1)
        (cacheSet c idx (translatePayload idx val)) o.tail j htail
      rw [this, cacheSet]
      simp [hne]

/-- A successful publish of `(j, p)` leaves `p` cached at `j` at the end of
the line. -/
theorem processValues_cache_pub (cfg : Config) (cm : ChannelMap) :
    ∀ (vs : List (Option PyVal)) (idx : ℕ) (c : Cache) (o : List Bool) (j : ℕ) (p : PyVal),
      (j, p) ∈ (processValues cfg cm vs idx c o).pubs →
      (processValues cfg cm vs idx c o).cache j = some p
  | [], idx, c, o, j, p => by
    simp [processValues_nil]
  | v :: rest, idx, c, o, j, p => by
    intro hq
    rcases v with _ | val
    · rw [processValues_cons_skip cfg cm rest (Or.inr rfl)] at hq ⊢
      exact processValues_cache_pub cfg cm rest (idx + 1) c o j p hq
    rcases hm : cmGet cm idx with _ | e
    · rw [processValues_cons_skip cfg cm rest (Or.inl hm)] at hq ⊢
      exact processValues_cache_pub cfg cm rest (idx + 1) c o j p hq
    rcases hsp : shouldPublish cfg.eps c idx (translatePayload idx val) with _ | _
    · rw [processValues_cons_dup cfg cm rest hm hsp] at hq ⊢
      exact processValues_cache_pub cfg cm rest (idx + 1) c o j p hq
    rcases ho : o.headD true with _ | _
    · rw [processValues_cons_fail cfg cm rest hm hsp ho] at hq
      simp at hq
    · rw [processValues_cons_pub cfg cm rest hm hsp ho] at hq ⊢
      rcases List.mem_cons.mp hq with h | h
      · injection h with h1 h2
        subst h1
        subst h2
        have htail : ∀ p' : PyVal, (j, p') ∉ (processValues cfg cm rest (j + 1)
            (cacheSet c j (translatePayload j val)) o.tail).pubs := by
          intro p' hp'
          have := processValues_pubs_ge cfg cm rest (j + 1) _ _ _ hp'
          simp at this
        rw [processValues_cache_stable cfg cm rest (j + 1) _ o.tail j htail, cacheSet]
        simp
      · exact processValues_cache_pub cfg cm rest (idx + 1) _ _ j p h


/-- When a publish raises at `(j, p)`, the loop stops there: no publish for
`j` succeeded and the cache slot `j` still holds its pre-line value. -/
theorem processValues_failed (cfg : Config) (cm : ChannelMap) :
    ∀ (vs : List (Option PyVal)) (idx : ℕ) (c : Cache) (o : List Bool) (j : ℕ) (p : PyVal),
      (processValues cfg cm vs idx c o).failed = some (j, p) →
      idx ≤ j ∧ (∀ p' : PyVal, (j, p') ∉ (processValues cfg cm vs idx c o).pubs)
        ∧ (processValues cfg cm vs idx c o).cache j = c j
  | [], idx, c, o, j, p => by
    simp [processValues_nil]
  | v :: rest, idx, c, o, j, p => by
    intro hf
    rcases v with _ | val
    · rw [processValues_cons_skip cfg cm rest (Or.inr rfl)] at hf ⊢
      have := processValues_failed cfg cm rest (idx + 1) c o j p hf
      exact ⟨by omega, this.2.1, this.2.2⟩
    rcases hm : cmGet cm idx with _ | e
    · rw [processValues_cons_skip cfg cm rest (Or.inl hm)] at hf ⊢
      have := processValues_failed cfg cm rest (idx + 1) c o j p hf
      exact ⟨by omega, this.2.1, this.2.2⟩
    rcases hsp : shouldPublish cfg.eps c idx (translatePayload idx val) with _ | _
    · rw [processValues_cons_dup cfg cm rest hm hsp] at hf ⊢
      have := processValues_failed cfg cm rest (idx + 1) c o j p hf
      exact ⟨by omega, this.2.1, this.2.2⟩
    rcases ho : o.headD true with _ | _
    · rw [processValues_cons_fail cfg cm rest hm hsp ho] at hf ⊢
      injection hf with hf
      injection hf with hf1 hf2
      subst hf1
      refine ⟨le_refl _, ?_, rfl⟩
      intro p' hp'
      simp at hp'
    · rw [processValues_cons_pub cfg cm rest hm hsp ho] at hf ⊢
      simp only at hf
      obtain ⟨hge, hnp, hc⟩ := processValues_failed cfg cm rest (idx + 1) _ _ j p hf
      refine ⟨by omega, ?_, ?_⟩
      · intro p' hp'
        rcases List.mem_cons.mp hp' with h | h
        · injection h with h1 h2
          omega
        · exact hnp p' h
      · rw [hc, cacheSet]
        have : ¬ j = idx := by omega
        simp [this]

/-- Rewrite equations for `pubsSpec`. -/
theorem pubsSpec_nil (cfg : Config) (cm : ChannelMap) (idx : ℕ) (c : Cache) :
    pubsSpec cfg cm [] idx c = [] := rfl

theorem pubsSpec_cons_skip (cfg : Config) (cm : ChannelMap) {idx : ℕ} {c : Cache}
    {v : Option PyVal} (rest : List (Option PyVal))
    (h : cmGet cm idx = none ∨ v = none) :
    pubsSpec cfg cm (v :: rest) idx c = pubsSpec cfg cm rest (idx + 1) c := by
  rcases h with h | h
  · rcases v with _ | val <;> simp [pubsSpec, h]
  · subst h
    rcases hm : cmGet cm idx with _ | e <;> simp [pubsSpec, hm]

theorem pubsSpec_cons_dup (cfg : Config) (cm : ChannelMap) {idx : ℕ} {c : Cache}
    {e : Entry} {val : PyVal} (rest : List (Option PyVal))
    (hm : cmGet cm idx = some e)
    (hsp : shouldPublish cfg.eps c idx (translatePayload idx val) = false) :
    pubsSpec cfg cm (some val :: rest) idx c = pubsSpec cfg cm rest (idx + 1) c := by
  simp [pubsSpec, hm, hsp]

theorem pubsSpec_cons_pub (cfg : Config) (cm : ChannelMap) {idx : ℕ} {c : Cache}
    {e : Entry} {val : PyVal} (rest : List (Option PyVal))
    (hm : cmGet cm idx = some e)
    (hsp : shouldPublish cfg.eps c idx (translatePayload idx val) = true) :
    pubsSpec cfg cm (some val :: rest) idx c =
      (idx, translatePayload idx val) :: pubsSpec cfg cm rest (idx + 1) c := by
  simp [pubsSpec, hm, hsp]

/-- `pubsSpec` positions are at or past the start index. -/
theorem pubsSpec_ge (cfg : Config) (cm : ChannelMap) :
    ∀ (vs : List (Option PyVal)) (idx : ℕ) (c : Cache) (q : ℕ × PyVal),
      q ∈ pubsSpec cfg cm vs idx c → idx ≤ q.1
  | [], idx, c, q => by simp [pubsSpec_nil]
  | v :: rest, idx, c, q => by
    intro hq
    rcases v with _ | val
    · rw [pubsSpec_cons_skip cfg cm rest (Or.inr rfl)] at hq
      have := pubsSpec_ge cfg cm rest (idx + 1) c q hq
      omega
    rcases hm : cmGet cm idx with _ | e
    · rw [pubsSpec_cons_skip cfg cm rest (Or.inl hm)] at hq
      have := pubsSpec_ge cfg cm rest (idx + 1) c q hq
      omega
    rcases hsp : shouldPublish cfg.eps c idx (translatePayload idx val) with _ | _
    · rw [pubsSpec_cons_dup cfg cm rest hm hsp] at hq
      have := pubsSpec_ge cfg cm rest (idx + 1) c q hq
      omega
    · rw [pubsSpec_cons_pub cfg cm rest hm hsp] at hq
      rcases List.mem_cons.mp hq with h | h
      · subst h
        exact le_refl idx
      · have := pubsSpec_ge cfg cm rest (idx + 1) c q h
        omega


/-- `pubsSpec` only reads the cache at indices at or past the start. -/
theorem pubsSpec_congr (cfg : Config) (cm : ChannelMap) :
    ∀ (vs : List (Option PyVal)) (idx : ℕ) (c1 c2 : Cache),
      (∀ j, idx ≤ j → c1 j = c2 j) → pubsSpec cfg cm vs idx c1 = pubsSpec cfg cm vs idx c2
  | [], idx, c1, c2, _ => rfl
  | v :: rest, idx, c1, c2, hagree => by
    have htail : ∀ j, idx + 1 ≤ j → c1 j = c2 j := fun j hj => hagree j (by omega)
    have ih := pubsSpec_congr cfg cm rest (idx + 1) c1 c2 htail
    rcases v with _ | val
    · rw [pubsSpec_cons_skip cfg cm rest (Or.inr rfl),
        pubsSpec_cons_skip cfg cm rest (Or.inr rfl), ih]
    rcases hm : cmGet cm idx with _ | e
    · rw [pubsSpec_cons_skip cfg cm rest (Or.inl hm),
        pubsSpec_cons_skip cfg cm rest (Or.inl hm), ih]
    have hc : c1 idx = c2 idx := hagree idx (le_refl idx)
    have hsame : shouldPublish cfg.eps c1 idx (translatePayload idx val) =
        shouldPublish cfg.eps c2 idx (translatePayload idx val) := by
      rw [shouldPublish, shouldPublish, hc]
    rcases hsp : shouldPublish cfg.eps c2 idx (translatePayload idx val) with _ | _
    · rw [pubsSpec_cons_dup cfg cm rest hm (hsame.trans hsp),
        pubsSpec_cons_dup cfg cm rest hm hsp, ih]
    · rw [pubsSpec_cons_pub cfg cm rest hm (hsame.trans hsp),
        pubsSpec_cons_pub cfg cm rest hm hsp, ih]

/-- With every publish succeeding, the successful publishes of the `for`
body are exactly `pubsSpec` of the pre-line cache: the change decision at
each index is made against the cache as it was before the line, because
in-line updates only touch indices already passed. -/
theorem processValues_pubs_ok (cfg : Config) (cm : ChannelMap) :
    ∀ (vs : List (Option PyVal)) (idx : ℕ) (c : Cache),
      (processValues cfg cm vs idx c []).pubs = pubsSpec cfg cm vs idx c
  | [], idx, c => rfl
  | v :: rest, idx, c => by
    rcases v with _ | val
    · rw [processValues_cons_skip cfg cm rest (Or.inr rfl),
        pubsSpec_cons_skip cfg cm rest (Or.inr rfl)]
      exact processValues_pubs_ok cfg cm rest (idx + 1) c
    rcases hm : cmGet cm idx with _ | e
    · rw [processValues_cons_skip cfg cm rest (Or.inl hm),
        pubsSpec_cons_skip cfg cm rest (Or.inl hm)]
      exact processValues_pubs_ok cfg cm rest (idx + 1) c
    rcases hsp : shouldPublish cfg.eps c idx (translatePayload idx val) with _ | _
    · rw [processValues_cons_dup cfg cm rest hm hsp,
        pubsSpec_cons_dup cfg cm rest hm hsp]
      exact processValues_pubs_ok cfg cm rest (idx + 1) c
    · rw [processValues_cons_pub cfg cm rest hm hsp (by rfl),
        pubsSpec_cons_pub cfg cm rest hm hsp]
      simp only [List.tail_nil]
      rw [processValues_pubs_ok cfg cm rest (idx + 1) (cacheSet c idx (translatePayload idx val))]
      refine congrArg₂ List.cons rfl ?_
      refine pubsSpec_congr cfg cm rest (idx + 1) _ c ?_
      intro j hj
      rw [cacheSet]
      have : ¬ j = idx := by omega
      simp [this]

/-- Membership characterization of `pubsSpec` at a fixed index carrying a
present, mapped value. -/
theorem pubsSpec_mem (cfg : Config) (cm : ChannelMap) :
    ∀ (vs : List (Option PyVal)) (idx : ℕ) (c : Cache) (j : ℕ) (val : PyVal),
      idx ≤ j → vs[j - idx]? = some (some val) → (cmGet cm j).isSome →
      (((j, translatePayload j val) ∈ pubsSpec cfg cm vs idx c ↔
          shouldPublish cfg.eps c j (translatePayload j val) = true)
        ∧ ∀ p : PyVal, (j, p) ∈ pubsSpec cfg cm vs idx c → p = translatePayload j val)
  | [], idx, c, j, val => by
    intro _ hv _
    simp at hv
  | v :: rest, idx, c, j, val => by
    intro hij hv hcm
    by_cases hj : idx = j
    · subst hj
      simp only [Nat.sub_self, List.getElem?_cons_zero] at hv
      injection hv with hv
      subst hv
      obtain ⟨e, hm⟩ := Option.isSome_iff_exists.mp hcm
      rcases hsp : shouldPublish cfg.eps c idx (translatePayload idx val) with _ | _
      · rw [pubsSpec_cons_dup cfg cm rest hm hsp]
        constructor
        · constructor
          · intro hmem
            have := pubsSpec_ge cfg cm rest (idx + 1) c _ hmem
            simp at this
          · intro hfalse
            simp at hfalse
        · intro p hp
          have := pubsSpec_ge cfg cm rest (idx + 1) c _ hp
          simp at this
      · rw [pubsSpec_cons_pub cfg cm rest hm hsp]
        constructor
        · constructor
          · intro _
            rfl
          · intro _
            exact List.mem_cons_self _ _
        · intro p hp
          rcases List.mem_cons.mp hp with h | h
          · cases h
            rfl
          · have := pubsSpec_ge cfg cm rest (idx + 1) c _ h
            simp at this
    · have hij' : idx + 1 ≤ j := by omega
      have hv' : rest[j - (idx + 1)]? = some (some val) := by
        have : j - idx = (j - (idx + 1)) + 1 := by omega
        rw [this, List.getElem?_cons_succ] at hv
        exact hv
      have ih := pubsSpec_mem cfg cm rest (idx + 1) c j val hij' hv' hcm
      rcases v with _ | val0
      · rw [pubsSpec_cons_skip cfg cm rest (Or.inr rfl)]
        exact ih
      rcases hm : cmGet cm idx with _ | e
      · rw [pubsSpec_cons_skip cfg cm rest (Or.inl hm)]
        exact ih
      rcases hsp : shouldPublish cfg.eps c idx (translatePayload idx val0) with _ | _
      · rw [pubsSpec_cons_dup cfg cm rest hm hsp]
        exact ih
      · rw [pubsSpec_cons_pub cfg cm rest hm hsp]
        constructor
        · constructor
          · intro hmem
            rcases List.mem_cons.mp hmem with h | h
            · injection h with h1 h2
              omega
            · exact ih.1.mp h
          · intro hcond
            exact List.mem_cons_of_mem _ (ih.1.mpr hcond)
        · intro p hp
          rcases List.mem_cons.mp hp with h | h
          · injection h with h1 h2
            omega
          · exact ih.2 p h


/-- Count of `pubsSpec` entries at a fixed index carrying a present, mapped
value: one if the change filter fires, zero otherwise. -/
theorem pubsSpec_count (cfg : Config) (cm : ChannelMap) :
    ∀ (vs : List (Option PyVal)) (idx : ℕ) (c : Cache) (j : ℕ) (val : PyVal),
      idx ≤ j → vs[j - idx]? = some (some val) → (cmGet cm j).isSome →
      (pubsSpec cfg cm vs idx c).countP (fun q => decide (q.1 = j)) =
        if shouldPublish cfg.eps c j (translatePayload j val) = true then 1 else 0
  | [], idx, c, j, val => by
    intro _ hv _
    simp at hv
  | v :: rest, idx, c, j, val => by
    intro hij hv hcm
    by_cases hj : idx = j
    · subst hj
      simp only [Nat.sub_self, List.getElem?_cons_zero] at hv
      injection hv with hv
      subst hv
      obtain ⟨e, hm⟩ := Option.isSome_iff_exists.mp hcm
      have htail0 : (pubsSpec cfg cm rest (idx + 1) c).countP
          (fun q => decide (q.1 = idx)) = 0 := by
        refine List.countP_eq_zero.mpr ?_
        intro q hq
        have := pubsSpec_ge cfg cm rest (idx + 1) c q hq
        simp only [decide_eq_true_eq]
        omega
      rcases hsp : shouldPublish cfg.eps c idx (translatePayload idx val) with _ | _
      · rw [pubsSpec_cons_dup cfg cm rest hm hsp, htail0]
        simp
      · rw [pubsSpec_cons_pub cfg cm rest hm hsp, List.countP_cons, htail0]
        simp
    · have hij' : idx + 1 ≤ j := by omega
      have hv' : rest[j - (idx + 1)]? = some (some val) := by
        have heq : j - idx = (j - (idx + 1)) + 1 := by omega
        rw [heq, List.getElem?_cons_succ] at hv
        exact hv
      have ih := pubsSpec_count cfg cm rest (idx + 1) c j val hij' hv' hcm
      rcases v with _ | val0
      · rw [pubsSpec_cons_skip cfg cm rest (Or.inr rfl)]
        exact ih
      rcases hm : cmGet cm idx with _ | e
      · rw [pubsSpec_cons_skip cfg cm rest (Or.inl hm)]
        exact ih
      rcases hsp : shouldPublish cfg.eps c idx (translatePayload idx val0) with _ | _
      · rw [pubsSpec_cons_dup cfg cm rest hm hsp]
        exact ih
      · rw [pubsSpec_cons_pub cfg cm rest hm hsp, List.countP_cons, ih]
        have : ¬ idx = j := hj
        simp [this]

/-- With a positive tolerance, every value compares equal to itself under
`almost_equal`. -/
theorem almost_equal_refl (eps : ℚ) (heps : 0 < eps) (p : PyVal) :
    almost_equal eps p p = true := by
  rcases p with n | q | s
  · simp [almost_equal, PyVal.isFloat, pyEq]
  · simp [almost_equal, PyVal.isFloat, pyToFloat, heps]
  · simp [almost_equal, PyVal.isFloat, pyEq]


/-- C1: with all publishes succeeding, a present value at a mapped index is
published exactly when no value is cached for the index or the cached
value differs under the index's rule — exact equality when neither value
is a float, absolute difference against the tolerance when either is
(difference strictly below the tolerance suppresses, at or beyond
publishes); the first value for an index is always published, and the same
unchanged value presented twice yields exactly one publish. -/
theorem spec_C1_change_filter (cfg : Config) (cm : ChannelMap) (c : Cache)
    (vs : List (Option PyVal)) (idx : ℕ) (v : PyVal) (e : Entry)
    (hv : vs[idx]? = some (some v)) (he : cmGet cm idx = some e) (heps : 0 < cfg.eps) :
    ((idx, translatePayload idx v) ∈ (processValues cfg cm vs 0 c []).pubs ↔
        shouldPublish cfg.eps c idx (translatePayload idx v) = true)
    ∧ (shouldPublish cfg.eps c idx (translatePayload idx v) = true ↔
        (c idx = none ∨ ∃ last, c idx = some last ∧
          almost_equal cfg.eps last (translatePayload idx v) = false))
    ∧ (∀ x y : ℚ, almost_equal cfg.eps (.float x) (.float y) = true ↔ |x - y| < cfg.eps)
    ∧ (∀ (m : ℤ) (y : ℚ), almost_equal cfg.eps (.int m) (.float y) = true ↔
        |(m : ℚ) - y| < cfg.eps)
    ∧ (∀ (x : ℚ) (n : ℤ), almost_equal cfg.eps (.float x) (.int n) = true ↔
        |x - (n : ℚ)| < cfg.eps)
    ∧ (∀ m n : ℤ, almost_equal cfg.eps (.int m) (.int n) = true ↔ m = n)
    ∧ (∀ s t : String, almost_equal cfg.eps (.str s) (.str t) = true ↔ s = t)
    ∧ (c idx = none → (idx, translatePayload idx v) ∈ (processValues cfg cm vs 0 c []).pubs)
    ∧ (c idx = none →
        (processValues cfg cm vs 0 c []).pubs.countP (fun q => decide (q.1 = idx))
        + (processValues cfg cm vs 0 ((processValues cfg cm vs 0 c []).cache) []).pubs.countP
            (fun q => decide (q.1 = idx)) = 1) := by
  have hv0 : vs[idx - 0]? = some (some v) := by simpa using hv
  have hcm : (cmGet cm idx).isSome := by rw [he]; rfl
  have hmem := pubsSpec_mem cfg cm vs 0 c idx v (Nat.zero_le idx) hv0 hcm
  have hmain : (idx, translatePayload idx v) ∈ (processValues cfg cm vs 0 c []).pubs ↔
      shouldPublish cfg.eps c idx (translatePayload idx v) = true := by
    rw [processValues_pubs_ok]
    exact hmem.1
  refine ⟨hmain, ?_, ?_, ?_, ?_, ?_, ?_, ?_, ?_⟩
  · rcases hc : c idx with _ | last
    · simp [shouldPublish, hc]
    · simp [shouldPublish, hc]
  · intro x y
    simp [almost_equal, PyVal.isFloat, pyToFloat]
  · intro m y
    simp [almost_equal, PyVal.isFloat, pyToFloat]
  · intro x n
    simp [almost_equal, PyVal.isFloat, pyToFloat]
  · intro m n
    simp [almost_equal, PyVal.isFloat, pyEq]
  · intro s t
    simp [almost_equal, PyVal.isFloat, pyEq]
  · intro hc
    exact hmain.mpr (by simp [shouldPublish, hc])
  · intro hc
    have hsp1 : shouldPublish cfg.eps c idx (translatePayload idx v) = true := by
      simp [shouldPublish, hc]
    have hcount1 : (processValues cfg cm vs 0 c []).pubs.countP
        (fun q => decide (q.1 = idx)) = 1 := by
      rw [processValues_pubs_ok,
        pubsSpec_count cfg cm vs 0 c idx v (Nat.zero_le idx) hv0 hcm, if_pos hsp1]
    have hcache : (processValues cfg cm vs 0 c []).cache idx =
        some (translatePayload idx v) :=
      processValues_cache_pub cfg cm vs 0 c [] idx _ (hmain.mpr hsp1)
    have hsp2 : shouldPublish cfg.eps ((processValues cfg cm vs 0 c []).cache) idx
        (translatePayload idx v) = false := by
      rw [shouldPublish, hcache]
      simp [almost_equal_refl cfg.eps heps]
    have hcount2 : (processValues cfg cm vs 0
        ((processValues cfg cm vs 0 c []).cache) []).pubs.countP
        (fun q => decide (q.1 = idx)) = 0 := by
      rw [processValues_pubs_ok,
        pubsSpec_count cfg cm vs 0 _ idx v (Nat.zero_le idx) hv0 hcm, hsp2]
      simp
    rw [hcount1, hcount2]

/-- Witness for C1 at a concrete input: from an empty cache, channel 1
with value 22 is published on the first line and suppressed on an
identical second line — one publish total. -/
theorem spec_C1_change_filter_witness :
    (processValues (Config.mk "nano_pk" 1 1 true) cmEx
        [some (.int 0), some (.int 22)] 0 emptyCache []).pubs.countP
        (fun q => decide (q.1 = 1))
    + (processValues (Config.mk "nano_pk" 1 1 true) cmEx [some (.int 0), some (.int 22)] 0
        ((processValues (Config.mk "nano_pk" 1 1 true) cmEx
          [some (.int 0), some (.int 22)] 0 emptyCache []).cache) []).pubs.countP
        (fun q => decide (q.1 = 1)) = 1 := by
  have h := (spec_C1_change_filter (Config.mk "nano_pk" 1 1 true) cmEx emptyCache
    [some (.int 0), some (.int 22)] 1 (.int 22) { aliasName := "kessel" }
    (by decide) (by decide) (by norm_num)).2.2.2.2.2.2.2.2
  exact h rfl

/-- C5: a cache slot is unchanged unless a publish for that index
succeeded, in which case it holds exactly the published value; a publish
that raises leaves its slot unchanged (so the value is republished on the
next line). -/
theorem spec_C5_cache_discipline (cfg : Config) (cm : ChannelMap)
    (vs : List (Option PyVal)) (idx : ℕ) (c : Cache) (o : List Bool) (j : ℕ) :
    ((∀ p : PyVal, (j, p) ∉ (processValues cfg cm vs idx c o).pubs) →
      (processValues cfg cm vs idx c o).cache j = c j)
    ∧ (∀ p : PyVal, (j, p) ∈ (processValues cfg cm vs idx c o).pubs →
        (processValues cfg cm vs idx c o).cache j = some p)
    ∧ (∀ p : PyVal, (processValues cfg cm vs idx c o).failed = some (j, p) →
        (processValues cfg cm vs idx c o).cache j = c j
        ∧ ∀ p' : PyVal, (j, p') ∉ (processValues cfg cm vs idx c o).pubs) :=
  ⟨processValues_cache_stable cfg cm vs idx c o j,
   fun p hp => processValues_cache_pub cfg cm vs idx c o j p hp,
   fun p hf => ⟨(processValues_failed cfg cm vs idx c o j p hf).2.2,
     (processValues_failed cfg cm vs idx c o j p hf).2.1⟩⟩

/-- Witness for C5 at a concrete input: after a successful publish of 5 on
channel 1 the cache holds 5; after a failing publish it stays empty. -/
theorem spec_C5_cache_discipline_witness :
    (processValues cfgEx cmEx [some (.int 0), some (.int 5)] 0 emptyCache []).cache 1 =
      some (.int 5)
    ∧ (processValues cfgEx cmEx [some (.int 0), some (.int 5)] 0 emptyCache [false]).cache 1 =
      emptyCache 1 :=
  ⟨(spec_C5_cache_discipline cfgEx cmEx [some (.int 0), some (.int 5)] 0 emptyCache [] 1).2.1
      (.int 5) (by decide),
   ((spec_C5_cache_discipline cfgEx cmEx [some (.int 0), some (.int 5)] 0 emptyCache
      [false] 1).2.2 (.int 5) (by decide)).1⟩

/-- Counterexample to C4 as stated: at a concrete input, a failing
per-channel publish (the only failure in the iteration) makes the loop
close the telnet handle and reconnect — teardown and reconnection do
happen. -/
theorem spec_C4_counterexample :
    (bridgeStep cfgEx cmEx (.ok "pm 0 5") emptyCache [false]).1 =
      [.pub "nano_pk/kessel" (.int 5) 1 true, .tnClose,
       .pub "nano_pk/status" (.str "offline") 1 true, .sleepEv 2, .tnConnect,
       .pub "nano_pk/status" (.str "online") 1 true]
    ∧ Ev.tnClose ∈ (bridgeStep cfgEx cmEx (.ok "pm 0 5") emptyCache [false]).1
    ∧ Ev.tnConnect ∈ (bridgeStep cfgEx cmEx (.ok "pm 0 5") emptyCache [false]).1 := by
  refine ⟨by decide, by decide, by decide⟩

/-- C4 (amended): a failing per-channel publish is caught by the Running
state's handler: it is logged and dropped (the cache slot is not updated)
and the loop continues — but only after performing the full Terminal-Link
reconnect sequence (close, offline publish, fixed pause, backoff
reconnect, online publish). -/
theorem spec_C4_publish_failure (cfg : Config) (cm : ChannelMap) (c : Cache)
    (o : List Bool) (raw : String) (vs : List (Option PyVal))
    (h0 : ¬ raw = "") (h1 : ¬ pyStrip raw = "")
    (h2 : parse_pm_line (pyStrip raw) = some vs) (h3 : vs.isEmpty = false)
    (hr : (processValues cfg cm vs 0 c o).raised = true) :
    bridgeStep cfg cm (.ok raw) c o =
      ((processValues cfg cm vs 0 c o).events ++
        [.tnClose, .pub (mqttStatus cfg) (.str "offline") cfg.qos true, .sleepEv 2,
         .tnConnect, .pub (mqttStatus cfg) (.str "online") cfg.qos true],
       (processValues cfg cm vs 0 c o).cache,
       (processValues cfg cm vs 0 c o).oracle.tail.tail)
    ∧ (∀ (j : ℕ) (p : PyVal), (processValues cfg cm vs 0 c o).failed = some (j, p) →
        (processValues cfg cm vs 0 c o).cache j = c j) := by
  constructor
  · simp [bridgeStep, h0, h1, h2, h3, hr, handleLinkError]
  · intro j p hf
    exact (processValues_failed cfg cm vs 0 c o j p hf).2.2

/-- Witness for the amended C4 at a concrete input. -/
theorem spec_C4_publish_failure_witness :
    (bridgeStep cfgEx cmEx (.ok "pm 0 5") emptyCache [false]).2.2 = [] := by
  have h := (spec_C4_publish_failure cfgEx cmEx emptyCache [false] "pm 0 5"
    [some (.int 0), some (.int 5)] (by decide) (by decide) (by decide) (by decide)
    (by decide)).1
  rw [h]
  decide


/-- Witness for C2 at concrete inputs: a wrong-marker line is rejected via
the rejection clause, and a valid line decodes via the acceptance
clause. -/
theorem spec_C2_value_decoder_witness :
    parse_pm_line "zz 1 2" = none ∧ parse_pm_line "pm 8 9" = some [some (.int 8), some (.int 9)] := by
  constructor
  · exact spec_C2_value_decoder.1 "zz 1 2" (Or.inr (Or.inl (by decide)))
  · have h := spec_C2_value_decoder.2.1 "pm 8 9" (by decide) (by decide) (by decide)
    rw [h]
    decide

/-- Witness for C8 at a concrete input: a `°C` channel's descriptor sits at
its position with the temperature device class inferred. -/
theorem spec_C8_discovery_witness :
    ∃ p : DiscoveryPayload,
      (send_discovery cfgEx [(1, { aliasName := "temp", unit := some "°C" })])[0]? =
        some ("homeassistant/sensor/nano_pk_temp/config", p, true)
      ∧ p.device_class = some "temperature" := by
  obtain ⟨p, h1, h2, h3, h4, h5⟩ :=
    (spec_C8_discovery cfgEx [(1, { aliasName := "temp", unit := some "°C" })]).2.2.1 0 1
      { aliasName := "temp", unit := some "°C" } (by decide)
  obtain ⟨hu, hs, hd⟩ := h4 (by decide)
  refine ⟨p, ?_, ?_⟩
  · rw [show ("homeassistant/sensor/nano_pk_" ++
        Entry.mqttName { aliasName := "temp", unit := some "°C" } ++ "/config")
        = "homeassistant/sensor/nano_pk_temp/config" from by decide] at h1
    exact h1
  · rw [hd]
    decide

/-- Witness for C9 at a concrete input: a first token longer than the
marker is accepted and discarded whole. -/
theorem spec_C9_marker_is_text_prefix_witness :
    parse_pm_line "pm123 4" = some [some (.int 4)] := by
  have h := spec_C9_marker_is_text_prefix.2.2 "pm123 4" (by decide) (by decide)
  rw [h]
  decide


end NanoPk
